import Mathlib

/-!
# Verification of `common/logger.go` (sjatsh/soar)

A shallow embedding of the logging indirection layer: the `Logger` interface, the
default `LocalLogger` backend, the process-wide `Log` and `BaseDir` variables, the
stack-introspection helpers `Caller` and `GetFunctionName`, the pure helper
`fileName`, and the conditional logging helpers `LogIfError` and `LogIfWarn`.

Conventions of the embedding.

* A Go `string` is a Lean `String`; slicing and searching work on its character
  list. The only separators the program searches for are the ASCII characters
  `/` and `.`, each a single byte that never occurs inside a multi-byte UTF-8
  sequence, so byte offsets and character offsets cut a string at the same places.
* Stateful code passes a `World` explicitly. A run-time panic is the error side of
  `Except Panic`.
* The Go runtime and library functions the file calls (`strings.LastIndex`,
  `fmt.Sprint`, `fmt.Print`, `runtime.Caller`, `runtime.Callers`,
  `runtime.FuncForPC`, `(*Func).Name`, `(*Regexp).ReplaceAllString`) are embedded
  under their Go names, following the behaviour documented for them.
-/

set_option autoImplicit false

namespace Soar

/-! ## Run-time panics -/

/-- Run-time panics the embedded code can raise. -/
inductive Panic where
  | nilDereference
  | indexOutOfRange
  deriving DecidableEq, Repr

/-! ## `strings` -/

/-- Go `strings.HasPrefix` on character lists. -/
def strings.hasPrefixList : List Char → List Char → Bool
  | _, [] => true
  | [], _ :: _ => false
  | x :: xs, y :: ys => x == y && strings.hasPrefixList xs ys

/-- Backward scan of `strings.LastIndex`: the largest `i ≤ start` at which `substr`
occurs in `s`, or `-1`. -/
def strings.lastIndexFrom (s substr : List Char) : Nat → Int
  | 0 => if strings.hasPrefixList s substr then 0 else -1
  | i + 1 =>
    if strings.hasPrefixList (s.drop (i + 1)) substr then ((i + 1 : Nat) : Int)
    else strings.lastIndexFrom s substr i

/-- Go `strings.LastIndex(s, substr)`: the index of the last instance of `substr` in
`s`, or `-1` if `substr` is not present in `s`. -/
def strings.LastIndex (s substr : String) : Int :=
  if s.data.length < substr.data.length then -1
  else strings.lastIndexFrom s.data substr.data (s.data.length - substr.data.length)

/-! ## `fmt` -/

/-- Scalar values that can sit behind an `interface{}` in the variadic list. -/
inductive Value where
  | str (s : String)
  | int (i : Int)
  | bool (b : Bool)
  | nil
  deriving DecidableEq, Repr

/-- The `%v` rendering of a scalar value. -/
def Value.format : Value → String
  | .str s => s
  | .int i => toString i
  | .bool b => if b then "true" else "false"
  | .nil => "<nil>"

/-- One operand of `fmt.Sprint` / `fmt.Print`: a scalar, a `[]interface{}` or a
`[]string`. -/
inductive Operand where
  | scalar (x : Value)
  | slice (elems : List Value)
  | strings (elems : List String)
  deriving DecidableEq, Repr

/-- The `%v` rendering of an operand; a slice is rendered as `[e1 e2 ... en]`. -/
def Operand.format : Operand → String
  | .scalar x => x.format
  | .slice elems => "[" ++ " ".intercalate (elems.map Value.format) ++ "]"
  | .strings elems => "[" ++ " ".intercalate elems ++ "]"

/-- Whether the operand has kind `string` (`fmt` adds no space next to one). -/
def Operand.isString : Operand → Bool
  | .scalar (.str _) => true
  | _ => false

/-- The loop of `fmt`'s `doPrint`: a space is added between two operands when
neither is a string. -/
def fmt.doPrint : List Operand → Bool → Bool → String
  | [], _, _ => ""
  | arg :: rest, first, prevString =>
    (if !first && !arg.isString && !prevString then " " else "")
      ++ arg.format ++ fmt.doPrint rest false arg.isString

/-- Go `fmt.Sprint(a...)`. -/
def fmt.Sprint (a : List Operand) : String :=
  fmt.doPrint a true false

/-- Go `fmt.Print(a...)`: appends the rendering to standard output. -/
def fmt.Print (a : List Operand) (stdout : String) : String :=
  stdout ++ fmt.Sprint a

/-! ## `runtime` -/

/-- A frame of the call stack: its program counter and source position. -/
structure Frame where
  pc : Nat
  file : String
  line : Int
  deriving DecidableEq, Repr

/-- Go `runtime.Func`, reduced to the function's fully qualified name. -/
structure Func where
  name : String
  deriving DecidableEq, Repr

/-- What the running goroutine looks like to the introspection functions: `stack`
lists the frames from the embedded function itself (index 0) outwards, `callersPC`
is the program counter reported for `runtime.Callers` itself, and `funcs` is the
symbol table behind `runtime.FuncForPC`. -/
structure Runtime where
  stack : List Frame
  callersPC : Nat
  funcs : Nat → Option Func

/-- Go `runtime.Caller(skip)`: `skip = 0` names the function that calls
`runtime.Caller`. Yields `(pc, file, line, ok)`, all zero when there is no such
frame. -/
def runtime.Caller (rt : Runtime) (skip : Nat) : Nat × String × Int × Bool :=
  match rt.stack.get? skip with
  | some fr => (fr.pc, fr.file, fr.line, true)
  | none => (0, "", 0, false)

/-- Go `runtime.Callers(skip, pc)`: `skip = 0` names `runtime.Callers` itself and
`skip = 1` its caller. Fills `pc` from the front and yields the number of entries
written together with the new contents of `pc`. -/
def runtime.Callers (rt : Runtime) (skip : Nat) (pc : List Nat) : Nat × List Nat :=
  let found := ((rt.callersPC :: rt.stack.map Frame.pc).drop skip).take pc.length
  (found.length, found ++ pc.drop found.length)

/-- Go `runtime.FuncForPC(pc)`: `none` is the nil `*Func`. -/
def runtime.FuncForPC (rt : Runtime) (pc : Nat) : Option Func :=
  rt.funcs pc

/-- Go `(*Func).Name()`: the empty string on a nil receiver. -/
def Func.Name : Option Func → String
  | none => ""
  | some f => f.name

/-- Subtraction on `uintptr` (64 bits, wrapping). -/
def uintptrSub (a b : Nat) : Nat :=
  (a % 2 ^ 64 + (2 ^ 64 - b % 2 ^ 64)) % 2 ^ 64

/-- Slice indexing `xs[i]`, which panics out of range. -/
def index (xs : List Nat) (i : Nat) : Except Panic Nat :=
  match xs.get? i with
  | some x => .ok x
  | none => .error .indexOutOfRange

/-! ## `regexp` -/

/-- A single-character matcher. -/
inductive Atom where
  | literal (c : Char)
  | anyCharNotNL
  deriving DecidableEq, Repr

/-- Whether the atom accepts the character; `.` without the `s` flag rejects a
newline. -/
def Atom.accepts : Atom → Char → Bool
  | .literal c, x => x == c
  | .anyCharNotNL, x => x != '\n'

/-- The items of a compiled pattern, enough for `^.*\.(.*)$`: `^` and `$` without
the `m` flag (begin and end of text), one atom, a greedy star of an atom, and a
capture group around a greedy star of an atom. -/
inductive Item where
  | beginText
  | endText
  | one (a : Atom)
  | star (a : Atom)
  | captureStar (idx : Nat) (a : Atom)
  deriving DecidableEq, Repr

/-- A piece of a replacement template: literal text or a group reference `$n`. -/
inductive Piece where
  | text (s : List Char)
  | group (idx : Nat)
  deriving DecidableEq, Repr

/-- The first success among `f k, f (k - 1), ..., f 0`: a greedy repetition tries
the longest run first and backs off. -/
def firstSome {α : Type} (f : Nat → Option α) : Nat → Option α
  | 0 => f 0
  | k + 1 =>
    match f (k + 1) with
    | some a => some a
    | none => firstSome f k

/-- Leftmost-first (backtracking) match of the items against `s`, which starts at
offset `pos` of the text. Yields the number of characters consumed and the groups
captured. -/
def matchHere : List Item → Nat → List Char → Option (Nat × List (Nat × List Char))
  | [], _, _ => some (0, [])
  | .beginText :: items, pos, s => if pos = 0 then matchHere items pos s else none
  | .endText :: items, pos, s => if s.isEmpty then matchHere items pos s else none
  | .one a :: items, pos, s =>
    match s with
    | [] => none
    | x :: xs =>
      if a.accepts x then (matchHere items (pos + 1) xs).map (fun r => (r.1 + 1, r.2))
      else none
  | .star a :: items, pos, s =>
    firstSome (fun n => (matchHere items (pos + n) (s.drop n)).map (fun r => (r.1 + n, r.2)))
      (s.takeWhile a.accepts).length
  | .captureStar idx a :: items, pos, s =>
    firstSome
      (fun n =>
        (matchHere items (pos + n) (s.drop n)).map (fun r => (r.1 + n, (idx, s.take n) :: r.2)))
      (s.takeWhile a.accepts).length

/-- Tries the start offsets `start, start + 1, ...` (`n` of them) in turn. -/
def regexp.tryFrom (re : List Item) (src : List Char) :
    Nat → Nat → Option (Nat × Nat × List (Nat × List Char))
  | 0, _ => none
  | n + 1, start =>
    match matchHere re start (src.drop start) with
    | some (len, caps) => some (start, start + len, caps)
    | none => regexp.tryFrom re src n (start + 1)

/-- The `doExecute` of `regexp`: the leftmost match that starts at or after `pos`,
as `(begin, end, groups)`. -/
def regexp.doExecute (re : List Item) (src : List Char) (pos : Nat) :
    Option (Nat × Nat × List (Nat × List Char)) :=
  regexp.tryFrom re src (src.length + 1 - pos) pos

/-- The `expand` of `regexp`: a group that did not take part expands to nothing. -/
def regexp.expand (caps : List (Nat × List Char)) : List Piece → List Char
  | [] => []
  | .text s :: rest => s ++ regexp.expand caps rest
  | .group idx :: rest => ((caps.lookup idx).getD []) ++ regexp.expand caps rest

/-- The loop of `regexp`'s `replaceAll`, with `lastMatchEnd`, `searchPos` and the
output buffer as loop state. Each round moves `searchPos` forward, so
`src.length + 2` rounds of fuel are never used up. -/
def regexp.replaceLoop (re : List Item) (src : List Char) (repl : List Piece) :
    Nat → Nat → Nat → List Char → List Char
  | 0, lastMatchEnd, _, buf => buf ++ src.drop lastMatchEnd
  | fuel + 1, lastMatchEnd, searchPos, buf =>
    if searchPos ≤ src.length then
      match regexp.doExecute re src searchPos with
      | none => buf ++ src.drop lastMatchEnd
      | some (a0, a1, caps) =>
        let buf1 := buf ++ (src.drop lastMatchEnd).take (a0 - lastMatchEnd)
        let buf2 := if lastMatchEnd < a1 ∨ a0 = 0 then buf1 ++ regexp.expand caps repl else buf1
        let width := if searchPos < src.length then 1 else 0
        let searchPos1 :=
          if a1 < searchPos + width then searchPos + width
          else if a1 < searchPos + 1 then searchPos + 1
          else a1
        regexp.replaceLoop re src repl fuel a1 searchPos1 buf2
    else buf ++ src.drop lastMatchEnd

/-- Go `(*Regexp).ReplaceAllString(src, repl)`. -/
def regexp.ReplaceAllString (re : List Item) (src : String) (repl : List Piece) : String :=
  ⟨regexp.replaceLoop re src.data repl (src.data.length + 2) 0 0 []⟩

/-! ## `common/logger.go` -/

/-- The dynamic values of the interface type `Logger`: the default backend
`*LocalLogger`, or another implementation, told apart by an identifier. The nil
interface value is `none` in `Option Logger`. -/
inductive Logger where
  | LocalLogger
  | backend (id : Nat)
  deriving DecidableEq, Repr

/-- One call of a backend's `Print`, with the strings it received. -/
structure PrintCall where
  receiver : Logger
  v : List String
  deriving DecidableEq, Repr

/-- The process-wide state: the package variables `Log` and `BaseDir`, the calls
made to backends so far, and what has been written to standard output. -/
structure World where
  Log : Option Logger
  BaseDir : String
  calls : List PrintCall
  stdout : String
  deriving DecidableEq, Repr

/-- The method `(*LocalLogger).Print(v ...string)`: `fmt.Print(v)` with the slice
`v` as its single operand. -/
def LocalLogger.Print (v : List String) (stdout : String) : String :=
  fmt.Print [Operand.strings v] stdout

/-- The interface call `l.Print(v...)`: a nil interface panics; otherwise the call is
recorded and the default backend writes to standard output. -/
def Logger.Print (l : Option Logger) (v : List String) (w : World) : Except Panic World :=
  match l with
  | none => .error .nilDereference
  | some .LocalLogger =>
    .ok { w with calls := w.calls ++ [⟨.LocalLogger, v⟩], stdout := LocalLogger.Print v w.stdout }
  | some (.backend id) => .ok { w with calls := w.calls ++ [⟨.backend id, v⟩] }

/-- The state after `init()`: `Log = &LocalLogger{}`. -/
def init : World :=
  { Log := some .LocalLogger, BaseDir := "", calls := [], stdout := "" }

/-- The function `SetLogger(l Logger)`. -/
def SetLogger (l : Option Logger) (w : World) : World :=
  { w with Log := l }

/-- The function `Caller()`. Inside it, `rt.stack` has `Caller` at index 0. -/
def Caller (rt : Runtime) : Except Panic String :=
  let fpcs := List.replicate 1 0
  let (n, fpcs) := runtime.Callers rt 3 fpcs
  if n = 0 then .ok "n/a"
  else do
    let pc ← index fpcs 0
    let fn := runtime.FuncForPC rt (uintptrSub pc 1)
    if fn = none then .ok "n/a"
    else .ok (Func.Name fn)

/-- The compiled pattern `^.*\.(.*)$`. -/
def extractFnName : List Item :=
  [.beginText, .star .anyCharNotNL, .one (.literal '.'), .captureStar 1 .anyCharNotNL, .endText]

/-- The function `GetFunctionName()`, with the template `$1` as `[.group 1]`.
Inside it, `rt.stack` has `GetFunctionName` at index 0. -/
def GetFunctionName (rt : Runtime) : String :=
  let (pc, _, _, _) := runtime.Caller rt 1
  let functionObject := runtime.FuncForPC rt pc
  let fnName := regexp.ReplaceAllString extractFnName (Func.Name functionObject) [.group 1]
  fnName

/-- The function `fileName(original string)`. -/
def fileName (original : String) : String :=
  let i := strings.LastIndex original "/"
  if i = -1 then original
  else ⟨original.data.drop (i + 1).toNat⟩

/-- The function `LogIfError(err, format, v...)`; `err = none` is the nil error and
`some m` an error whose `Error()` is `m`. Inside it, `rt.stack` has `LogIfError` at
index 0 and the call site at index 1. -/
def LogIfError (err : Option String) (format : String) (v : List Value) (rt : Runtime)
    (w : World) : Except Panic World :=
  match err with
  | none => .ok w
  | some m =>
    let (_, fn, line, _) := runtime.Caller rt 1
    if format = "" then
      let format1 := "[%s:%d] %s"
      Logger.Print w.Log [format1, fileName fn, fmt.Sprint [.scalar (.int line)], m] w
    else
      let format1 := "[%s:%d] " ++ format ++ " Error: %s"
      Logger.Print w.Log
        [format1, fileName fn, fmt.Sprint [.scalar (.int line)], fmt.Sprint [.slice v], m] w

/-- The function `LogIfWarn(err, format, v...)`, embedded from its own body. -/
def LogIfWarn (err : Option String) (format : String) (v : List Value) (rt : Runtime)
    (w : World) : Except Panic World :=
  match err with
  | none => .ok w
  | some m =>
    let (_, fn, line, _) := runtime.Caller rt 1
    if format = "" then
      let format1 := "[%s:%d] %s"
      Logger.Print w.Log [format1, fileName fn, fmt.Sprint [.scalar (.int line)], m] w
    else
      let format1 := "[%s:%d] " ++ format ++ " Error: %s"
      Logger.Print w.Log
        [format1, fileName fn, fmt.Sprint [.scalar (.int line)], fmt.Sprint [.slice v], m] w

/-! ## Sample inputs -/

/-- A call stack of three frames, seen from the function at index 0, whose call
site is line 12 of `/a/b/c.go`; only two program counters resolve to functions. -/
def sampleRuntime : Runtime :=
  { stack := [⟨4096, "/src/common/logger.go", 95⟩, ⟨8192, "/a/b/c.go", 12⟩,
      ⟨12288, "/a/main.go", 7⟩]
    callersPC := 1024
    funcs := fun pc =>
      if pc = 12287 then some ⟨"main.main"⟩
      else if pc = 8192 then some ⟨"github.com/sjatsh/soar/common.(*T).helper"⟩
      else none }

/-- A call stack with a single frame: nothing above the running function. -/
def shallowRuntime : Runtime :=
  { stack := [⟨4096, "/src/common/logger.go", 56⟩]
    callersPC := 1024
    funcs := fun _ => none }

/-! ## Lists and the position of a separator -/

theorem hasPrefixList_singleton (t : List Char) (c : Char) :
    strings.hasPrefixList t [c] = true ↔ t.head? = some c := by
  cases t with
  | nil => simp [strings.hasPrefixList]
  | cons x xs => simp [strings.hasPrefixList]

theorem hasPrefixList_drop_singleton (s : List Char) (c : Char) (j : Nat) :
    strings.hasPrefixList (s.drop j) [c] = true ↔ s[j]? = some c := by
  rw [hasPrefixList_singleton, List.head?_drop]

theorem mem_iff_getElem?_eq (s : List Char) (c : Char) :
    c ∈ s ↔ ∃ j : Nat, s[j]? = some c :=
  List.mem_iff_getElem?

theorem not_mem_drop_succ (s : List Char) (c : Char) (i : Nat)
    (h : ∀ j, i < j → s[j]? ≠ some c) : c ∉ s.drop (i + 1) := by
  intro hmem
  obtain ⟨k, hk⟩ := List.mem_iff_getElem?.mp hmem
  rw [List.getElem?_drop] at hk
  exact h (i + 1 + k) (by omega) hk

theorem split_at_getElem? (s : List Char) (c : Char) (i : Nat) (h : s[i]? = some c) :
    s = s.take i ++ c :: s.drop (i + 1) := by
  obtain ⟨hi, hc⟩ := List.getElem?_eq_some_iff.mp h
  have h1 : s.drop i = c :: s.drop (i + 1) := by
    rw [List.drop_eq_getElem_cons hi, hc]
  calc s = s.take i ++ s.drop i := (List.take_append_drop i s).symm
    _ = s.take i ++ c :: s.drop (i + 1) := by rw [h1]

/-! ## `strings.LastIndex` with a one-character separator -/

theorem lastIndexFrom_spec (s : List Char) (c : Char) (k : Nat) :
    (strings.lastIndexFrom s [c] k = -1 ∧ ∀ j, j ≤ k → s[j]? ≠ some c) ∨
    (∃ i, i ≤ k ∧ strings.lastIndexFrom s [c] k = (i : Int) ∧ s[i]? = some c ∧
      ∀ j, i < j → j ≤ k → s[j]? ≠ some c) := by
  induction k with
  | zero =>
    by_cases h : strings.hasPrefixList s [c] = true
    · right
      refine ⟨0, le_refl 0, ?_, ?_, ?_⟩
      · simp [strings.lastIndexFrom, h]
      · have := (hasPrefixList_drop_singleton s c 0).mp (by simpa using h)
        exact this
      · intro j h1 h2; omega
    · left
      refine ⟨?_, ?_⟩
      · simp [strings.lastIndexFrom, h]
      · intro j hj hc
        have hj0 : j = 0 := by omega
        subst hj0
        exact h (by simpa using (hasPrefixList_drop_singleton s c 0).mpr hc)
  | succ k ih =>
    by_cases h : strings.hasPrefixList (s.drop (k + 1)) [c] = true
    · right
      refine ⟨k + 1, le_refl _, ?_, ?_, ?_⟩
      · simp [strings.lastIndexFrom, h]
      · exact (hasPrefixList_drop_singleton s c (k + 1)).mp h
      · intro j h1 h2; omega
    · have hk : s[k + 1]? ≠ some c := fun hc =>
        h ((hasPrefixList_drop_singleton s c (k + 1)).mpr hc)
      have hstep : strings.lastIndexFrom s [c] (k + 1) = strings.lastIndexFrom s [c] k := by
        simp [strings.lastIndexFrom, h]
      rcases ih with ⟨h1, h2⟩ | ⟨i, hi, h1, h2, h3⟩
      · left
        refine ⟨by rw [hstep, h1], ?_⟩
        intro j hj
        by_cases hjk : j = k + 1
        · subst hjk; exact hk
        · exact h2 j (by omega)
      · right
        refine ⟨i, by omega, by rw [hstep, h1], h2, ?_⟩
        intro j hj1 hj2
        by_cases hjk : j = k + 1
        · subst hjk; exact hk
        · exact h3 j hj1 (by omega)

theorem LastIndex_char_spec (s : List Char) (c : Char) :
    (strings.LastIndex ⟨s⟩ ⟨[c]⟩ = -1 ∧ c ∉ s) ∨
    (∃ i : Nat, strings.LastIndex ⟨s⟩ ⟨[c]⟩ = (i : Int) ∧ s[i]? = some c ∧
      c ∉ s.drop (i + 1)) := by
  unfold strings.LastIndex
  by_cases hlen : s.length < 1
  · left
    have hs : s = [] := by
      cases s with
      | nil => rfl
      | cons x xs => simp at hlen
    subst hs
    simp
  · have hlen1 : ¬ (s.length < [c].length) := by simpa using hlen
    simp only [hlen1, if_false]
    have hk : [c].length = 1 := rfl
    rw [hk]
    rcases lastIndexFrom_spec s c (s.length - 1) with ⟨h1, h2⟩ | ⟨i, hi, h1, h2, h3⟩
    · left
      refine ⟨h1, ?_⟩
      intro hmem
      obtain ⟨j, hj⟩ := (mem_iff_getElem?_eq s c).mp hmem
      have hjlt : j < s.length := (List.getElem?_eq_some_iff.mp hj).1
      exact h2 j (by omega) hj
    · right
      refine ⟨i, h1, h2, ?_⟩
      apply not_mem_drop_succ
      intro j hij hj
      have hjlt : j < s.length := (List.getElem?_eq_some_iff.mp hj).1
      exact h3 j hij (by omega) hj

/-! ## `fileName` -/

theorem fileName_cases (l : List Char) :
    (fileName ⟨l⟩ = ⟨l⟩ ∧ '/' ∉ l) ∨
    (∃ i : Nat, fileName ⟨l⟩ = ⟨l.drop (i + 1)⟩ ∧ l[i]? = some '/' ∧ '/' ∉ l.drop (i + 1)) := by
  rcases LastIndex_char_spec l '/' with ⟨h1, h2⟩ | ⟨i, h1, h2, h3⟩
  · left
    have h1a : strings.LastIndex ⟨l⟩ "/" = -1 := h1
    exact ⟨by simp [fileName, h1a], h2⟩
  · right
    have h1a : strings.LastIndex ⟨l⟩ "/" = (i : Int) := h1
    have hne : ¬ ((i : Int) = -1) := by omega
    have hnat : ((i : Int) + 1).toNat = i + 1 := by omega
    exact ⟨i, by simp [fileName, h1a, hne, hnat], h2, h3⟩

/-- C5. `fileName` yields the base name: a path without `/` comes back unchanged;
otherwise the path is some directory part, a `/`, and the result, and the result
holds no `/`. In particular `fileName "/a/b/c.ext" = "c.ext"`,
`fileName "noslash" = "noslash"` and `fileName "" = ""`. -/
theorem fileName_base_name :
    (∀ s : String,
      ('/' ∉ s.data → fileName s = s) ∧
      ('/' ∈ s.data →
        ∃ p : String, s = p ++ "/" ++ fileName s ∧ '/' ∉ (fileName s).data)) ∧
    fileName "/a/b/c.ext" = "c.ext" ∧ fileName "noslash" = "noslash" ∧ fileName "" = "" := by
  refine ⟨?_, by decide, by decide, by decide⟩
  intro s
  obtain ⟨l⟩ := s
  rcases fileName_cases l with ⟨h1, h2⟩ | ⟨i, h1, h2, h3⟩
  · exact ⟨fun _ => h1, fun hmem => absurd hmem h2⟩
  · refine ⟨fun hnm => absurd ((mem_iff_getElem?_eq l '/').mpr ⟨i, h2⟩) hnm, fun _ => ?_⟩
    refine ⟨⟨l.take i⟩, ?_, ?_⟩
    · rw [h1]
      apply String.ext
      simp only [String.data_append]
      have hsplit := split_at_getElem? l '/' i h2
      simpa using hsplit
    · rw [h1]; exact h3

/-- Witness for C5 at the path `/a/b/c.ext`, which holds a `/`. -/
theorem fileName_base_name_witness :
    '/' ∈ "/a/b/c.ext".data ∧
    ∃ p : String, "/a/b/c.ext" = p ++ "/" ++ fileName "/a/b/c.ext" ∧
      '/' ∉ (fileName "/a/b/c.ext").data :=
  ⟨by decide, (fileName_base_name.1 "/a/b/c.ext").2 (by decide)⟩

/-! ## `fmt.Sprint` of one operand -/

theorem Sprint_single (x : Operand) : fmt.Sprint [x] = x.format := by
  simp [fmt.Sprint, fmt.doPrint]

theorem Sprint_int (n : Int) : fmt.Sprint [.scalar (.int n)] = toString n := by
  rw [Sprint_single]; rfl

theorem Sprint_slice (v : List Value) :
    fmt.Sprint [.slice v] = "[" ++ " ".intercalate (v.map Value.format) ++ "]" := by
  rw [Sprint_single]; rfl

/-! ## The conditional logging helpers -/

theorem Caller_one (rt : Runtime) (fr : Frame) (h : rt.stack.get? 1 = some fr) :
    runtime.Caller rt 1 = (fr.pc, fr.file, fr.line, true) := by
  unfold runtime.Caller
  rw [h]

theorem Print_some (l : Logger) (args : List String) (w : World) :
    ∃ w1, Logger.Print (some l) args w = .ok w1 ∧ w1.calls = w.calls ++ [⟨l, args⟩] ∧
      w1.Log = w.Log ∧ w1.BaseDir = w.BaseDir := by
  cases l with
  | LocalLogger => exact ⟨_, rfl, rfl, rfl, rfl⟩
  | backend id => exact ⟨_, rfl, rfl, rfl, rfl⟩

theorem LogIfError_empty (m : String) (v : List Value) (rt : Runtime) (w : World) :
    LogIfError (some m) "" v rt w =
      Logger.Print w.Log ["[%s:%d] %s", fileName (runtime.Caller rt 1).2.1,
        toString (runtime.Caller rt 1).2.2.1, m] w := by
  simp [LogIfError, Sprint_int]

theorem LogIfError_format (m f : String) (hf : f ≠ "") (v : List Value) (rt : Runtime)
    (w : World) :
    LogIfError (some m) f v rt w =
      Logger.Print w.Log ["[%s:%d] " ++ f ++ " Error: %s", fileName (runtime.Caller rt 1).2.1,
        toString (runtime.Caller rt 1).2.2.1,
        "[" ++ " ".intercalate (v.map Value.format) ++ "]", m] w := by
  simp [LogIfError, Sprint_int, Sprint_slice, hf]

/-- C1. With a nil error, `LogIfError` and `LogIfWarn` return the world they were
given: no `Print` call is recorded, and `Log`, `BaseDir` and standard output are
untouched, whatever the format, the values and the call site. -/
theorem LogIf_nil_no_effect (format : String) (v : List Value) (rt : Runtime) (w : World) :
    LogIfError none format v rt w = .ok w ∧ LogIfWarn none format v rt w = .ok w :=
  ⟨rfl, rfl⟩

/-- C6. `LogIfError` and `LogIfWarn` are the same function: on every error value,
format, value list, call stack and world they give the same outcome (the same
`Print` calls with the same arguments, the same state, the same panic). -/
theorem LogIfError_eq_LogIfWarn (err : Option String) (format : String) (v : List Value)
    (rt : Runtime) (w : World) :
    LogIfError err format v rt w = LogIfWarn err format v rt w :=
  rfl

/-- C2, as stated, fails at the nil `Logger`: `SetLogger(nil)` is accepted, and a
call of `LogIfError` or `LogIfWarn` with a non-nil error then panics on `Log.Print`,
in the empty-format and in the non-empty-format branch, instead of invoking a
backend once. -/
theorem SetLogger_nil_then_log_panics :
    LogIfError (some "boom") "" [] sampleRuntime (SetLogger none init)
      = .error .nilDereference ∧
    LogIfError (some "boom") "ctx %s" [.str "X"] sampleRuntime (SetLogger none init)
      = .error .nilDereference ∧
    LogIfWarn (some "boom") "" [] sampleRuntime (SetLogger none init)
      = .error .nilDereference ∧
    LogIfWarn (some "boom") "ctx %s" [.str "X"] sampleRuntime (SetLogger none init)
      = .error .nilDereference :=
  ⟨rfl, rfl, rfl, rfl⟩

/-- C2, amended. After `SetLogger(l)` with a non-nil `l`, a call of `LogIfError` or
`LogIfWarn` with a non-nil error succeeds and adds exactly one `Print` call,
received by `l` and by no other backend, whatever the format (empty or not), the
values, the call stack and the backend installed before; `l` stays installed for
the calls that follow. -/
theorem SetLogger_routes_to_installed (l : Logger) (m format : String) (v : List Value)
    (rt : Runtime) (w : World) :
    (∃ args w1, LogIfError (some m) format v rt (SetLogger (some l) w) = .ok w1 ∧
      w1.calls = w.calls ++ [⟨l, args⟩] ∧ w1.Log = some l) ∧
    (∃ args w1, LogIfWarn (some m) format v rt (SetLogger (some l) w) = .ok w1 ∧
      w1.calls = w.calls ++ [⟨l, args⟩] ∧ w1.Log = some l) := by
  have key : ∃ args w1, LogIfError (some m) format v rt (SetLogger (some l) w) = .ok w1 ∧
      w1.calls = w.calls ++ [⟨l, args⟩] ∧ w1.Log = some l := by
    by_cases hf : format = ""
    · subst hf
      obtain ⟨w1, h1, h2, h3, _⟩ := Print_some l
        ["[%s:%d] %s", fileName (runtime.Caller rt 1).2.1,
          toString (runtime.Caller rt 1).2.2.1, m] (SetLogger (some l) w)
      exact ⟨_, w1, by rw [LogIfError_empty]; exact h1, h2, h3⟩
    · obtain ⟨w1, h1, h2, h3, _⟩ := Print_some l
        ["[%s:%d] " ++ format ++ " Error: %s", fileName (runtime.Caller rt 1).2.1,
          toString (runtime.Caller rt 1).2.2.1,
          "[" ++ " ".intercalate (v.map Value.format) ++ "]", m] (SetLogger (some l) w)
      exact ⟨_, w1, by rw [LogIfError_format m format hf]; exact h1, h2, h3⟩
  exact ⟨key, key⟩

/-- C10. With a non-nil error of message `m`, a call site `fr` and `l` installed,
`LogIfError` and `LogIfWarn` hand `l.Print` the template unexpanded, followed by the
components as separate strings: four strings for the empty format, five for a
non-empty format `f`, the fourth being the bracketed rendering of the value list. -/
theorem LogIf_passes_template_and_components (m f : String) (v : List Value) (rt : Runtime)
    (fr : Frame) (l : Logger) (w : World) (hsite : rt.stack.get? 1 = some fr)
    (hlog : w.Log = some l) (hf : f ≠ "") :
    (∃ w1, LogIfError (some m) "" v rt w = .ok w1 ∧
      w1.calls = w.calls ++ [⟨l, ["[%s:%d] %s", fileName fr.file, toString fr.line, m]⟩]) ∧
    (∃ w1, LogIfWarn (some m) "" v rt w = .ok w1 ∧
      w1.calls = w.calls ++ [⟨l, ["[%s:%d] %s", fileName fr.file, toString fr.line, m]⟩]) ∧
    (∃ w1, LogIfError (some m) f v rt w = .ok w1 ∧
      w1.calls = w.calls ++ [⟨l, ["[%s:%d] " ++ f ++ " Error: %s", fileName fr.file,
        toString fr.line, "[" ++ " ".intercalate (v.map Value.format) ++ "]", m]⟩]) ∧
    (∃ w1, LogIfWarn (some m) f v rt w = .ok w1 ∧
      w1.calls = w.calls ++ [⟨l, ["[%s:%d] " ++ f ++ " Error: %s", fileName fr.file,
        toString fr.line, "[" ++ " ".intercalate (v.map Value.format) ++ "]", m]⟩]) := by
  have hc := Caller_one rt fr hsite
  have h1 : ∃ w1, LogIfError (some m) "" v rt w = .ok w1 ∧
      w1.calls = w.calls ++ [⟨l, ["[%s:%d] %s", fileName fr.file, toString fr.line, m]⟩] := by
    obtain ⟨w1, e1, e2, _⟩ := Print_some l
      ["[%s:%d] %s", fileName fr.file, toString fr.line, m] w
    exact ⟨w1, by rw [LogIfError_empty, hc, hlog]; exact e1, e2⟩
  have h2 : ∃ w1, LogIfError (some m) f v rt w = .ok w1 ∧
      w1.calls = w.calls ++ [⟨l, ["[%s:%d] " ++ f ++ " Error: %s", fileName fr.file,
        toString fr.line, "[" ++ " ".intercalate (v.map Value.format) ++ "]", m]⟩] := by
    obtain ⟨w1, e1, e2, _⟩ := Print_some l
      ["[%s:%d] " ++ f ++ " Error: %s", fileName fr.file, toString fr.line,
        "[" ++ " ".intercalate (v.map Value.format) ++ "]", m] w
    exact ⟨w1, by rw [LogIfError_format m f hf, hc, hlog]; exact e1, e2⟩
  exact ⟨h1, h1, h2, h2⟩

/-- Witness for C10 at error `boom`, format `ctx %s`, value `X`, the default
backend and a call site at line 12 of `/a/b/c.go`. -/
theorem LogIf_passes_template_and_components_witness :
    (∃ w1, LogIfError (some "boom") "" [.str "X"] sampleRuntime init = .ok w1 ∧
      w1.calls = [⟨.LocalLogger, ["[%s:%d] %s", "c.go", "12", "boom"]⟩]) ∧
    (∃ w1, LogIfError (some "boom") "ctx %s" [.str "X"] sampleRuntime init = .ok w1 ∧
      w1.calls = [⟨.LocalLogger, ["[%s:%d] ctx %s Error: %s", "c.go", "12", "[X]", "boom"]⟩]) :=
  have h := LogIf_passes_template_and_components "boom" "ctx %s" [.str "X"] sampleRuntime
    ⟨8192, "/a/b/c.go", 12⟩ .LocalLogger init rfl rfl (by decide)
  ⟨h.1, h.2.2.1⟩

/-- C3, at the failing input. For the error `boom` raised at line 12 of
`/a/b/c.go` with an empty format, `LogIfError` and `LogIfWarn` do not emit the line
`[c.go:12] boom`: the installed backend receives the four strings `[%s:%d] %s`,
`c.go`, `12`, `boom`, the template unexpanded, which are not that line even when
joined, and the default backend writes `[[%s:%d] %s c.go 12 boom]`. -/
theorem LogIf_empty_format_not_the_line :
    ∃ w1, LogIfError (some "boom") "" [] sampleRuntime init = .ok w1 ∧
      LogIfWarn (some "boom") "" [] sampleRuntime init = .ok w1 ∧
      w1.calls = [⟨.LocalLogger, ["[%s:%d] %s", "c.go", "12", "boom"]⟩] ∧
      w1.calls ≠ [⟨.LocalLogger, ["[c.go:12] boom"]⟩] ∧
      String.join ["[%s:%d] %s", "c.go", "12", "boom"] ≠ "[c.go:12] boom" ∧
      w1.stdout = "[[%s:%d] %s c.go 12 boom]" ∧ w1.stdout ≠ "[c.go:12] boom" :=
  ⟨_, rfl, rfl, by decide, by decide, by decide, by decide, by decide⟩

/-- C4, at the failing input. For the error `boom`, the format `ctx %s` and the
value `X` at line 12 of `/a/b/c.go`, `LogIfError` and `LogIfWarn` do not emit the
line `[c.go:12] ctx X Error: boom`: the installed backend receives five strings,
the template unexpanded and the value list collapsed into `[X]`, which are not that
line even when joined, and the default backend writes them between brackets. The
value `X` is substituted into the format nowhere. -/
theorem LogIf_format_not_the_line :
    ∃ w1, LogIfError (some "boom") "ctx %s" [.str "X"] sampleRuntime init = .ok w1 ∧
      LogIfWarn (some "boom") "ctx %s" [.str "X"] sampleRuntime init = .ok w1 ∧
      w1.calls = [⟨.LocalLogger, ["[%s:%d] ctx %s Error: %s", "c.go", "12", "[X]", "boom"]⟩] ∧
      w1.calls ≠ [⟨.LocalLogger, ["[c.go:12] ctx X Error: boom"]⟩] ∧
      String.join ["[%s:%d] ctx %s Error: %s", "c.go", "12", "[X]", "boom"]
        ≠ "[c.go:12] ctx X Error: boom" ∧
      w1.stdout = "[[%s:%d] ctx %s Error: %s c.go 12 [X] boom]" ∧
      w1.stdout ≠ "[c.go:12] ctx X Error: boom" :=
  ⟨_, rfl, rfl, by decide, by decide, by decide, by decide, by decide⟩

/-! ## The default backend -/

/-- C9, as stated, fails: `LocalLogger.Print("a", "b")` writes `[a b]`, with
brackets and a separating space, not the concatenation `ab`; with no strings at all
it still writes `[]`. -/
theorem LocalLogger_Print_not_concatenation :
    LocalLogger.Print ["a", "b"] "" = "[a b]" ∧
    LocalLogger.Print ["a", "b"] "" ≠ "" ++ String.join ["a", "b"] ∧
    LocalLogger.Print [] "" = "[]" ∧
    LocalLogger.Print [] "" ≠ "" ++ String.join [] := by
  decide

/-- C9, amended. `LocalLogger.Print(v...)` appends to standard output an opening
bracket, the strings of `v` in order separated by single spaces, and a closing
bracket; it adds no timestamp and no newline. -/
theorem LocalLogger_Print_writes_bracketed (v : List String) (stdout : String) :
    LocalLogger.Print v stdout = stdout ++ ("[" ++ " ".intercalate v ++ "]") := by
  unfold LocalLogger.Print fmt.Print
  rw [Sprint_single]
  rfl

/-! ## `Caller` -/

theorem Callers_three (rt : Runtime) :
    runtime.Callers rt 3 [0] =
      match rt.stack.get? 2 with
      | none => (0, [0])
      | some fr => (1, [fr.pc]) := by
  obtain ⟨stack, cpc, funcs⟩ := rt
  unfold runtime.Callers
  match stack with
  | [] => rfl
  | [_] => rfl
  | [_, _] => rfl
  | _ :: _ :: fr :: rest => simp

/-- C7. Over a call stack whose frame three levels up may be missing and whose
program counters may fail to resolve: `Caller()` never panics; it returns `n/a` when
`runtime.Callers` reports 0 (the frame is missing) and when `runtime.FuncForPC`
yields nil, and otherwise the name of the function that called `Caller`'s caller. -/
theorem Caller_sentinel_or_name (rt : Runtime) :
    (∃ name, Caller rt = .ok name) ∧
    ((runtime.Callers rt 3 [0]).1 = 0 → Caller rt = .ok "n/a") ∧
    (rt.stack.get? 2 = none → Caller rt = .ok "n/a") ∧
    (∀ fr, rt.stack.get? 2 = some fr →
      runtime.FuncForPC rt (uintptrSub fr.pc 1) = none → Caller rt = .ok "n/a") ∧
    (∀ fr f, rt.stack.get? 2 = some fr →
      runtime.FuncForPC rt (uintptrSub fr.pc 1) = some f → Caller rt = .ok f.name) := by
  have hnone : rt.stack.get? 2 = none → Caller rt = .ok "n/a" := by
    intro h
    have hc := Callers_three rt
    rw [h] at hc
    simp only [Caller, List.replicate, hc]
    rfl
  have hnil : ∀ fr, rt.stack.get? 2 = some fr →
      runtime.FuncForPC rt (uintptrSub fr.pc 1) = none → Caller rt = .ok "n/a" := by
    intro fr h hf
    have hc := Callers_three rt
    rw [h] at hc
    simp only [Caller, List.replicate, hc]
    simp [index, bind, Except.bind, hf]
  have hname : ∀ fr f, rt.stack.get? 2 = some fr →
      runtime.FuncForPC rt (uintptrSub fr.pc 1) = some f → Caller rt = .ok f.name := by
    intro fr f h hf
    have hc := Callers_three rt
    rw [h] at hc
    simp only [Caller, List.replicate, hc]
    simp [index, bind, Except.bind, hf, Func.Name]
  refine ⟨?_, ?_, hnone, hnil, hname⟩
  · cases h : rt.stack.get? 2 with
    | none => exact ⟨_, hnone h⟩
    | some fr =>
      cases hf : runtime.FuncForPC rt (uintptrSub fr.pc 1) with
      | none => exact ⟨_, hnil fr h hf⟩
      | some f => exact ⟨_, hname fr f h hf⟩
  · intro h0
    cases h : rt.stack.get? 2 with
    | none => exact hnone h
    | some fr =>
      have hc := Callers_three rt
      rw [h] at hc
      rw [hc] at h0
      exact absurd h0 (by simp)

/-- Witness for C7: in the sample stack the frame three levels up resolves to
`main.main`, and in the one-frame stack `Caller` yields the sentinel. -/
theorem Caller_sentinel_or_name_witness :
    Caller sampleRuntime = .ok "main.main" ∧ Caller shallowRuntime = .ok "n/a" :=
  ⟨(Caller_sentinel_or_name sampleRuntime).2.2.2.2 ⟨12288, "/a/main.go", 7⟩ ⟨"main.main"⟩
      rfl rfl,
    (Caller_sentinel_or_name shallowRuntime).2.2.1 rfl⟩

/-! ## The pattern `^.*\.(.*)$` -/

theorem firstSome_top {α : Type} (f : Nat → Option α) (k : Nat) (a : α) (h : f k = some a) :
    firstSome f k = some a := by
  cases k with
  | zero => simpa [firstSome] using h
  | succ k => simp [firstSome, h]

theorem firstSome_skip {α : Type} (f : Nat → Option α) (n k : Nat) (hnk : n ≤ k)
    (h : ∀ m, n < m → m ≤ k → f m = none) : firstSome f k = firstSome f n := by
  induction k with
  | zero =>
    have : n = 0 := by omega
    subst this; rfl
  | succ k ih =>
    by_cases hn : n = k + 1
    · subst hn; rfl
    · have hk : f (k + 1) = none := h (k + 1) (by omega) (le_refl _)
      have hstep : firstSome f (k + 1) = firstSome f k := by simp [firstSome, hk]
      rw [hstep]
      exact ih (by omega) (fun m h1 h2 => h m h1 (by omega))

theorem firstSome_none {α : Type} (f : Nat → Option α) (k : Nat)
    (h : ∀ m, m ≤ k → f m = none) : firstSome f k = none := by
  induction k with
  | zero => simpa [firstSome] using h 0 (le_refl 0)
  | succ k ih =>
    have hk : f (k + 1) = none := h (k + 1) (le_refl _)
    have hstep : firstSome f (k + 1) = firstSome f k := by simp [firstSome, hk]
    rw [hstep]
    exact ih (fun m hm => h m (by omega))

theorem takeWhile_anyCharNotNL (u : List Char) (hu : '\n' ∉ u) :
    u.takeWhile Atom.anyCharNotNL.accepts = u := by
  rw [List.takeWhile_eq_self_iff]
  intro x hx
  have hne : x ≠ '\n' := fun h => hu (h ▸ hx)
  simp [Atom.accepts, hne]

theorem matchHere_beginText (items : List Item) (pos : Nat) (s : List Char) :
    matchHere (.beginText :: items) pos s = if pos = 0 then matchHere items pos s else none := by
  rw [matchHere]

theorem matchHere_endText (items : List Item) (pos : Nat) (s : List Char) :
    matchHere (.endText :: items) pos s =
      if s.isEmpty then matchHere items pos s else none := by
  rw [matchHere]

theorem matchHere_one_nil (a : Atom) (items : List Item) (pos : Nat) :
    matchHere (.one a :: items) pos [] = none := by
  rw [matchHere]

theorem matchHere_one_cons (a : Atom) (items : List Item) (pos : Nat) (x : Char)
    (xs : List Char) :
    matchHere (.one a :: items) pos (x :: xs) =
      if a.accepts x then (matchHere items (pos + 1) xs).map (fun r => (r.1 + 1, r.2))
      else none := by
  rw [matchHere]

theorem matchHere_star (a : Atom) (items : List Item) (pos : Nat) (s : List Char) :
    matchHere (.star a :: items) pos s =
      firstSome
        (fun n => (matchHere items (pos + n) (s.drop n)).map (fun r => (r.1 + n, r.2)))
        (s.takeWhile a.accepts).length := by
  rw [matchHere]

theorem matchHere_captureStar (idx : Nat) (a : Atom) (items : List Item) (pos : Nat)
    (s : List Char) :
    matchHere (.captureStar idx a :: items) pos s =
      firstSome
        (fun n =>
          (matchHere items (pos + n) (s.drop n)).map
            (fun r => (r.1 + n, (idx, s.take n) :: r.2)))
        (s.takeWhile a.accepts).length := by
  rw [matchHere]

theorem matchHere_capture_end (pos : Nat) (u : List Char) (hu : '\n' ∉ u) :
    matchHere [.captureStar 1 .anyCharNotNL, .endText] pos u = some (u.length, [(1, u)]) := by
  rw [matchHere_captureStar, takeWhile_anyCharNotNL u hu]
  apply firstSome_top
  simp [matchHere_endText, matchHere]

theorem matchHere_tail_some (pos : Nat) (s : List Char) (n : Nat) (hs : '\n' ∉ s)
    (h : s[n]? = some '.') :
    matchHere [.one (.literal '.'), .captureStar 1 .anyCharNotNL, .endText] pos (s.drop n) =
      some ((s.drop (n + 1)).length + 1, [(1, s.drop (n + 1))]) := by
  obtain ⟨hn, hc⟩ := List.getElem?_eq_some_iff.mp h
  have hd : s.drop n = '.' :: s.drop (n + 1) := by
    rw [List.drop_eq_getElem_cons hn, hc]
  have hu : '\n' ∉ s.drop (n + 1) := fun hm => hs (List.mem_of_mem_drop hm)
  rw [hd, matchHere_one_cons, matchHere_capture_end _ _ hu]
  simp [Atom.accepts]

theorem matchHere_tail_none (pos : Nat) (s : List Char) (n : Nat) (h : s[n]? ≠ some '.') :
    matchHere [.one (.literal '.'), .captureStar 1 .anyCharNotNL, .endText] pos (s.drop n) =
      none := by
  have hh : (s.drop n).head? ≠ some '.' := by rwa [List.head?_drop]
  cases hd : s.drop n with
  | nil => rw [matchHere_one_nil]
  | cons x xs =>
    rw [hd] at hh
    have hx : x ≠ '.' := by simpa using hh
    rw [matchHere_one_cons]
    simp [Atom.accepts, hx]

theorem getElem?_ne_of_not_mem_drop (s : List Char) (c : Char) (i m : Nat) (him : i < m)
    (h : c ∉ s.drop (i + 1)) : s[m]? ≠ some c := by
  intro hm
  apply h
  apply List.mem_iff_getElem?.mpr
  refine ⟨m - (i + 1), ?_⟩
  rw [List.getElem?_drop]
  have : i + 1 + (m - (i + 1)) = m := by omega
  rw [this]; exact hm

theorem matchHere_extract_dot (s : List Char) (i : Nat) (hs : '\n' ∉ s)
    (hi : s[i]? = some '.') (hlast : '.' ∉ s.drop (i + 1)) :
    matchHere extractFnName 0 s = some (s.length, [(1, s.drop (i + 1))]) := by
  have hlt : i < s.length := (List.getElem?_eq_some_iff.mp hi).1
  unfold extractFnName
  rw [matchHere_beginText, if_pos rfl, matchHere_star, takeWhile_anyCharNotNL s hs]
  rw [firstSome_skip _ i s.length (by omega)]
  · apply firstSome_top
    rw [matchHere_tail_some _ s i hs hi]
    simp only [Option.map, List.length_drop]
    have : s.length - (i + 1) + 1 + i = s.length := by omega
    rw [this]
  · intro m h1 _
    rw [matchHere_tail_none _ s m (getElem?_ne_of_not_mem_drop s '.' i m h1 hlast)]
    rfl

theorem matchHere_extract_nodot (s : List Char) (hdot : '.' ∉ s) :
    matchHere extractFnName 0 s = none := by
  unfold extractFnName
  rw [matchHere_beginText, if_pos rfl, matchHere_star]
  apply firstSome_none
  intro m _
  have hm : s[m]? ≠ some '.' := fun h => hdot (List.mem_iff_getElem?.mpr ⟨m, h⟩)
  rw [matchHere_tail_none _ s m hm]
  rfl

theorem tryFrom_extract_later (s : List Char) (n start : Nat) (hstart : 0 < start) :
    regexp.tryFrom extractFnName s n start = none := by
  induction n generalizing start with
  | zero => rfl
  | succ n ih =>
    have hne : ¬ (start = 0) := by omega
    have hm : matchHere extractFnName start (s.drop start) = none := by
      unfold extractFnName
      rw [matchHere_beginText, if_neg hne]
    simp only [regexp.tryFrom, hm]
    exact ih (start + 1) (by omega)

theorem doExecute_extract_dot (s : List Char) (i : Nat) (hs : '\n' ∉ s)
    (hi : s[i]? = some '.') (hlast : '.' ∉ s.drop (i + 1)) :
    regexp.doExecute extractFnName s 0 = some (0, s.length, [(1, s.drop (i + 1))]) := by
  have hm := matchHere_extract_dot s i hs hi hlast
  unfold regexp.doExecute
  show regexp.tryFrom extractFnName s (s.length + 1) 0 = _
  rw [regexp.tryFrom, List.drop_zero, hm]
  simp

theorem doExecute_extract_nodot (s : List Char) (hdot : '.' ∉ s) :
    regexp.doExecute extractFnName s 0 = none := by
  have hm := matchHere_extract_nodot s hdot
  unfold regexp.doExecute
  show regexp.tryFrom extractFnName s (s.length + 1) 0 = _
  rw [regexp.tryFrom, List.drop_zero, hm]
  exact tryFrom_extract_later s _ _ (by omega)

theorem doExecute_extract_later (s : List Char) (pos : Nat) (hpos : 0 < pos) :
    regexp.doExecute extractFnName s pos = none :=
  tryFrom_extract_later s _ pos hpos

theorem replaceLoop_extract_nodot (s : List Char) (hdot : '.' ∉ s) :
    regexp.replaceLoop extractFnName s [.group 1] (s.length + 2) 0 0 [] = s := by
  show regexp.replaceLoop extractFnName s [.group 1] (s.length + 1 + 1) 0 0 [] = s
  rw [regexp.replaceLoop]
  simp [doExecute_extract_nodot s hdot]

theorem replaceLoop_extract_dot (s : List Char) (i : Nat) (hs : '\n' ∉ s)
    (hi : s[i]? = some '.') (hlast : '.' ∉ s.drop (i + 1)) :
    regexp.replaceLoop extractFnName s [.group 1] (s.length + 2) 0 0 [] = s.drop (i + 1) := by
  have hlt : i < s.length := (List.getElem?_eq_some_iff.mp hi).1
  have hpos : 0 < s.length := by omega
  have h1 : ¬ (s.length < 1) := by omega
  have h2 : ¬ (s.length < 0 + 1) := by omega
  show regexp.replaceLoop extractFnName s [.group 1] (s.length + 1 + 1) 0 0 [] = _
  rw [regexp.replaceLoop]
  simp only [doExecute_extract_dot s i hs hi hlast, Nat.zero_le, if_true, hpos, h1, h2,
    if_false, Nat.zero_add, or_true, true_or]
  rw [regexp.replaceLoop]
  simp [doExecute_extract_later s s.length hpos, regexp.expand, List.lookup]

/-! ## `GetFunctionName` -/

theorem GetFunctionName_eq (rt : Runtime) (fr : Frame) (q : String)
    (hsite : rt.stack.get? 1 = some fr) (hfun : runtime.FuncForPC rt fr.pc = some ⟨q⟩) :
    GetFunctionName rt = regexp.ReplaceAllString extractFnName q [.group 1] := by
  unfold GetFunctionName
  rw [Caller_one rt fr hsite]
  simp only [hfun, Func.Name]

/-- C8. When the immediate caller resolves to the fully qualified name `q`, a
string without newline, `GetFunctionName` returns `q` itself if `q` holds no `.`,
and otherwise the part of `q` after its last `.`: `q` is some text, a `.`, and the
result, and the result holds no `.`. -/
theorem GetFunctionName_simple_name (rt : Runtime) (fr : Frame) (q : String)
    (hsite : rt.stack.get? 1 = some fr) (hfun : runtime.FuncForPC rt fr.pc = some ⟨q⟩)
    (hnl : '\n' ∉ q.data) :
    ('.' ∉ q.data → GetFunctionName rt = q) ∧
    ('.' ∈ q.data →
      ∃ p : String, q = p ++ "." ++ GetFunctionName rt ∧ '.' ∉ (GetFunctionName rt).data) := by
  rw [GetFunctionName_eq rt fr q hsite hfun]
  obtain ⟨l⟩ := q
  unfold regexp.ReplaceAllString
  rcases LastIndex_char_spec l '.' with ⟨_, hno⟩ | ⟨i, _, hi, hlast⟩
  · refine ⟨fun _ => ?_, fun hmem => absurd hmem hno⟩
    rw [replaceLoop_extract_nodot l hno]
  · refine ⟨fun hno => absurd ((mem_iff_getElem?_eq l '.').mpr ⟨i, hi⟩) hno, fun _ => ?_⟩
    rw [replaceLoop_extract_dot l i hnl hi hlast]
    refine ⟨⟨l.take i⟩, ?_, hlast⟩
    apply String.ext
    simp only [String.data_append]
    have hsplit := split_at_getElem? l '.' i hi
    simpa using hsplit

/-- Witness for C8: in the sample stack the immediate caller is
`github.com/sjatsh/soar/common.(*T).helper`, and the result is the part after the
last `.`. -/
theorem GetFunctionName_simple_name_witness :
    GetFunctionName sampleRuntime = "helper" ∧
    ∃ p : String, "github.com/sjatsh/soar/common.(*T).helper"
        = p ++ "." ++ GetFunctionName sampleRuntime ∧
      '.' ∉ (GetFunctionName sampleRuntime).data :=
  ⟨by decide,
    (GetFunctionName_simple_name sampleRuntime ⟨8192, "/a/b/c.go", 12⟩
      "github.com/sjatsh/soar/common.(*T).helper" rfl rfl (by decide)).2 (by decide)⟩

end Soar
